import Mathlib

/-!
Shallow embedding of the trading decision pipeline of the microcap-scout bot:
the Price Router (src/data/price_router.py), the allocation engine
(src/trader/allocation.py), the risk model (src/trader/risk_model.py), the
order executor (src/trader/order_executor.py), the portfolio state store
(src/trader/portfolio_state.py) and the signal router
(src/strategy/signal_router.py).

Python floats are modelled as rationals, exceptions as explicit sum types,
and external effects (network calls, the clock) as oracle parameters that are
universally quantified in the theorems.
-/

namespace MicrocapScout

/-! ## Price Router (src/data/price_router.py)

One call to an adapter's get_price either raises (err), returns None (nil),
or returns a price (ok).  The router tries adapters strictly in order.  We
model a router call as a pure function of the list of per-adapter outcomes,
returning the result together with how many adapters were actually called. -/

inductive PriceRes where
  | ok (p : ℚ)
  | nil
  | err (e : String)
deriving DecidableEq

/-- Last exception raised by any adapter in the list (the running
`last_error` variable of PriceRouter.get_price), threaded left to right. -/
def lastCause : List PriceRes → Option String → Option String
  | [], last => last
  | .err e :: rest, _ => lastCause rest (some e)
  | _ :: rest, last => lastCause rest last

/-- PriceRouter.get_price over the per-adapter outcomes: first non-None price
wins; adapters after the first success are never consulted.  The second
component counts the adapters actually called. -/
def get_price : List PriceRes → Option String → Except (Option String) ℚ × ℕ
  | [], last => (.error last, 0)
  | .ok p :: _, _ => (.ok p, 1)
  | .nil :: rest, last =>
      let r := get_price rest last
      (r.1, r.2 + 1)
  | .err e :: rest, _ =>
      let r := get_price rest (some e)
      (r.1, r.2 + 1)

/-- One adapter outcome for get_aggregates: raised, or returned a bar list
(the empty list counts as a failure: `if not bars: continue`). -/
inductive AggRes where
  | ret (bars : List ℚ)
  | err (e : String)
deriving DecidableEq

def aggLastCause : List AggRes → Option String → Option String
  | [], last => last
  | .err e :: rest, _ => aggLastCause rest (some e)
  | _ :: rest, last => aggLastCause rest last

/-- PriceRouter.get_aggregates over the per-adapter outcomes: the first
non-empty bar list wins.  The second component counts adapters called. -/
def get_aggregates : List AggRes → Option String → Except (Option String) (List ℚ) × ℕ
  | [], last => (.error last, 0)
  | .ret bars :: rest, last =>
      if bars = [] then
        let r := get_aggregates rest last
        (r.1, r.2 + 1)
      else (.ok bars, 1)
  | .err e :: rest, _ =>
      let r := get_aggregates rest (some e)
      (r.1, r.2 + 1)

/-- An adapter outcome that get_price treats as a success. -/
def priceSuccess : PriceRes → Prop
  | .ok _ => True
  | _ => False

instance (r : PriceRes) : Decidable (priceSuccess r) := by
  cases r <;> simp [priceSuccess] <;> infer_instance

/-- An adapter outcome that get_aggregates treats as a success. -/
def aggSuccess : AggRes → Prop
  | .ret bars => bars ≠ []
  | .err _ => False

instance (r : AggRes) : Decidable (aggSuccess r) := by
  cases r <;> simp [aggSuccess] <;> infer_instance

/-! ## Allocation engine (src/trader/allocation.py)

allocate_positions iterates the final signals, fetching a live price per
symbol (the oracle `price`; `none` models the fetch raising), sizes each
position from the base allocation with volume-ratio and signal-type scaling,
and keeps a running remaining budget.  Python's `allocations` dict is an
association list with insert-or-replace semantics (existing keys keep their
position, new keys are appended, as CPython dicts do). -/

structure AllocSignal where
  symbol : String
  stype : String
  /-- the signal's vol_ratio field (1.0 when absent or a bare string) -/
  vol_level : ℚ
deriving DecidableEq

/-- Insert-or-replace on an association list, mirroring a Python dict
assignment `allocations[symbol] = shares`. -/
def upsert : List (String × ℤ) → String → ℤ → List (String × ℤ)
  | [], s, v => [(s, v)]
  | (k, x) :: rest, s, v =>
      if k = s then (s, v) :: rest else (k, x) :: upsert rest s v

/-- Size scaling applied to the base allocation (lines 40-54 of
src/trader/allocation.py). -/
def sizeFor (base : ℚ) (crash : Bool) (stype : String) (vol : ℚ) : ℚ :=
  if crash then
    let s1 := if vol > 9/5 then base * (3/5)
      else if vol < 4/5 then min base (base * (6/5)) else base
    if stype = "reversal" then s1 * (3/4) else s1
  else
    let s1 := if vol > 3/2 then base * (1/2)
      else if vol < 7/10 then min base (base * (13/10)) else base
    if stype = "reversal" then s1 * (3/5) else s1

/-- The per-signal loop of allocate_positions.  `acc` is the allocations
dict so far, `rem` the remaining budget. -/
def allocLoop (price : String → Option ℚ) (crash : Bool) (base : ℚ) :
    List AllocSignal → List (String × ℤ) → ℚ → List (String × ℤ)
  | [], acc, _ => acc
  | sig :: rest, acc, rem =>
      if crash ∧ 3 ≤ acc.length then acc
      else
        match price sig.symbol with
        | none => allocLoop price crash base rest acc rem
        | some p =>
            let size := min (sizeFor base crash sig.stype sig.vol_level) rem
            let shares : ℤ := if 0 < p then ⌊size / p⌋ else 0
            if shares ≤ 0 then allocLoop price crash base rest acc rem
            else
              let notional := (shares : ℚ) * p
              if rem < notional then allocLoop price crash base rest acc rem
              else
                let acc2 := upsert acc sig.symbol shares
                let rem2 := rem - notional
                if rem2 ≤ 0 then acc2
                else allocLoop price crash base rest acc2 rem2

/-- allocate_positions (src/trader/allocation.py lines 12-81).  `B` is the
configured DAILY_BUDGET. -/
def allocate_positions (price : String → Option ℚ) (sigs : List AllocSignal)
    (crash : Bool) (B : ℚ) : List (String × ℤ) :=
  if sigs = [] then []
  else if crash then allocLoop price true (B * (4/5) / 3) sigs [] (B * (4/5))
  else allocLoop price false (B / 3) sigs [] B

/-- The price an allocation entry was bought at, read back from the oracle
(0 when the oracle has no price, which never happens for stored entries). -/
def priceD (price : String → Option ℚ) (s : String) : ℚ :=
  (price s).getD 0

/-- Total notional of an allocations dict: sum over entries of
shares times the symbol's price. -/
def totalNotional (price : String → Option ℚ) (l : List (String × ℤ)) : ℚ :=
  (l.map (fun e => (e.2 : ℚ) * priceD price e.1)).sum

/-- Invariant of the allocations dict maintained by the loop: every stored
entry has a positive share count and a positive fetched price. -/
def entriesWF (price : String → Option ℚ) (l : List (String × ℤ)) : Prop :=
  ∀ e ∈ l, 0 < e.2 ∧ 0 < priceD price e.1

/-! ## Risk model (src/trader/risk_model.py)

Module constants: STOP_LOSS_PCT = 0.006, TAKE_PROFIT_PCT = 0.018,
crash-mode variants 0.005 / 0.015, time caps 60 min crash / 90 min normal. -/

/-- Python's round on an exact value: ties go to the even integer. -/
def pyRound (x : ℚ) : ℤ :=
  let f := ⌊x⌋
  let r := x - f
  if r < 1/2 then f
  else if 1/2 < r then f + 1
  else if f % 2 = 0 then f else f + 1

/-- round(x, 2) on an exact value. -/
def round2 (x : ℚ) : ℚ :=
  (pyRound (x * 100) : ℚ) / 100

def STOP_LOSS_PCT : ℚ := 6/1000

def TAKE_PROFIT_PCT : ℚ := 18/1000

/-- stop_loss_price (src/trader/risk_model.py lines 20-22). -/
def stop_loss_price (entry_price : ℚ) (crash : Bool) : ℚ :=
  let pct := if crash then 5/1000 else STOP_LOSS_PCT
  round2 (entry_price * (1 - pct))

/-- take_profit_price (src/trader/risk_model.py lines 25-27). -/
def take_profit_price (entry_price : ℚ) (crash : Bool) : ℚ :=
  let pct := if crash then 15/1000 else TAKE_PROFIT_PCT
  round2 (entry_price * (1 + pct))

/-- The entry_timestamp field of a position dict: absent, present but not
parseable as a float, or a parsed epoch value. -/
inductive TSField where
  | missing
  | unparsable
  | ts (t : ℚ)
deriving DecidableEq

structure RPosition where
  current_price : ℚ
  entry_price : ℚ
  /-- none models both a missing symbol field and Python None -/
  symbol : Option String
  entry_timestamp : TSField
deriving DecidableEq

/-- should_exit (src/trader/risk_model.py lines 36-82).  `aggExit` is the
oracle for the technical-exit block: fetching 120 bars through the router,
building the frame and running passes_exit_filter; `.error` models any
exception in that block and `.ok b` a filter verdict b.  (In the current
source the block always raises: the call passes a keyword `window` that
PriceRouter.get_aggregates does not accept, so at run time the oracle is
constantly `.error`; the theorems below hold for every oracle.)  `now` is
the UTC clock.  Returns (exit decision, whether the technical-exit block
was entered). -/
def should_exit (aggExit : String → Except Unit Bool) (now : ℚ)
    (pos : RPosition) (crash : Bool) : Bool × Bool :=
  let price := pos.current_price
  let entry := pos.entry_price
  if price = 0 ∨ entry = 0 then (true, false)
  else
    let tp_pct := if crash then 15/1000 else TAKE_PROFIT_PCT
    let sl_pct := if crash then 5/1000 else STOP_LOSS_PCT
    let max_minutes : ℚ := if crash then 60 else 90
    let gain := price / entry - 1
    if tp_pct ≤ gain ∨ gain ≤ -sl_pct then (true, false)
    else
      match pos.entry_timestamp with
      | .missing => (false, false)
      | .unparsable => (false, false)
      | .ts t =>
          let elapsed_minutes := (now - t) / 60
          if max_minutes ≤ elapsed_minutes then (true, false)
          else
            match pos.symbol with
            | none => (false, false)
            | some sym =>
                if sym = "" then (false, false)
                else
                  match aggExit sym with
                  | .ok b => (b, true)
                  | .error _ => (true, true)

/-! ## Order executor (src/trader/order_executor.py)

execute_trades re-checks open positions from the brokerage, fetches buying
power, and submits one bracket order per allocation entry unless a guard
skips it.  External collaborators are oracle fields of ExecEnv. -/

structure Order where
  symbol : String
  qty : ℤ
  tp : ℚ
  sl : ℚ
deriving DecidableEq

structure ExecEnv where
  /-- trading_client.get_all_positions(): raises, or the open symbols -/
  positionsFetch : Except Unit (List String)
  /-- trading_client.get_account().buying_power: raises, or the value -/
  accountFetch : Except Unit ℚ
  /-- price_router.get_price per symbol; none models the fetch raising -/
  price : String → Option ℚ
  /-- whether trading_client.submit_order succeeds for a symbol -/
  submitOk : String → Bool

/-- The per-allocation loop of execute_trades (lines 46-84), returning the
bracket orders actually submitted. -/
def execLoop (env : ExecEnv) (crash : Bool) (openPos : List String) :
    List (String × ℤ) → ℚ → List Order
  | [], _ => []
  | (sym, shares) :: rest, bp =>
      if shares ≤ 0 then execLoop env crash openPos rest bp
      else if sym ∈ openPos then execLoop env crash openPos rest bp
      else
        match env.price sym with
        | none => execLoop env crash openPos rest bp
        | some p =>
            let notional := (shares : ℚ) * p
            if bp ≠ 0 ∧ bp < notional then execLoop env crash openPos rest bp
            else
              let tp := take_profit_price p crash
              let sl := stop_loss_price p crash
              if env.submitOk sym then
                let bp2 := if bp ≠ 0 then max 0 (bp - notional) else bp
                ⟨sym, shares, tp, sl⟩ :: execLoop env crash openPos rest bp2
              else execLoop env crash openPos rest bp

/-- execute_trades (src/trader/order_executor.py lines 26-84).
`hasClient` models whether the Alpaca trading client was constructed. -/
def execute_trades (env : ExecEnv) (hasClient : Bool)
    (allocations : List (String × ℤ)) (crash : Bool) : List Order :=
  if allocations = [] then []
  else if hasClient = false then []
  else
    let openPos := match env.positionsFetch with
      | .ok l => l
      | .error _ => []
    let bp := match env.accountFetch with
      | .ok b => b
      | .error _ => 0
    execLoop env crash openPos allocations bp

/-- Number of orders submitted for a given symbol. -/
def submissionsFor (orders : List Order) (sym : String) : ℕ :=
  (orders.filter (fun o => o.symbol = sym)).length

/-! ## Portfolio state store (src/trader/portfolio_state.py)

States are JSON values; json.load / json.dump round-trip a JSON value
exactly, so the persisted file is modelled as holding a JVal (or being
missing / unreadable). -/

inductive JVal where
  | str (s : String)
  | num (q : ℚ)
  | bool (b : Bool)
  | arr (l : List JVal)
  | obj (l : List (String × JVal))

/-- dict.get on an object (first binding wins; CPython dicts have unique
keys). -/
def jget : List (String × JVal) → String → Option JVal
  | [], _ => none
  | (k, v) :: rest, key => if k = key then some v else jget rest key

/-- dict assignment: existing keys keep their position, new keys append. -/
def jset : List (String × JVal) → String → JVal → List (String × JVal)
  | [], key, v => [(key, v)]
  | (k, x) :: rest, key, v =>
      if k = key then (key, v) :: rest else (k, x) :: jset rest key v

/-- dict.setdefault. -/
def jsetdefault (kvs : List (String × JVal)) (key : String) (v : JVal) :
    List (String × JVal) :=
  match jget kvs key with
  | some _ => kvs
  | none => jset kvs key v

/-- The persisted state file: missing, unreadable (OSError or
JSONDecodeError), or a parsed JSON value. -/
inductive FileContent where
  | missing
  | unreadable
  | parsed (v : JVal)

/-- The module-level DEFAULT_STATE dict (src/trader/portfolio_state.py
lines 14-19): the documented empty-state shape. -/
def DEFAULT_STATE (today : String) : JVal :=
  .obj [("date", .str today), ("equity", .num 100000),
        ("daily_pnl", .num 0), ("positions", .arr [])]

/-- reset_state (lines 55-60): the state actually written and returned on a
missing or unreadable file.  `now` is datetime.utcnow().isoformat(). -/
def reset_state (now : String) : JVal :=
  .obj [("positions", .obj []), ("last_updated", .str now)]

/-- Whether the stored date field already equals today (the test
`state.get("date") != today` is false exactly when the field holds the
string `today`). -/
def dateIsToday (v : Option JVal) (today : String) : Bool :=
  match v with
  | some (.str d) => d = today
  | _ => false

/-- ensure_today_state (lines 46-52).  `initial_equity` is
settings.initial_equity. -/
def ensure_today_state (today : String) (initial_equity : ℚ) : JVal → JVal
  | .obj kvs =>
      if dateIsToday (jget kvs "date") today then .obj kvs
      else
        let k1 := jset kvs "date" (.str today)
        let k2 := jset k1 "daily_pnl" (.num 0)
        let k3 := jsetdefault k2 "equity" (.num initial_equity)
        .obj (jset k3 "positions" (.arr []))
  | v => v

/-- load_state (lines 22-37).  Returns the state and whether a warning was
logged.  It never raises: every branch returns a value. -/
def load_state (today now : String) (initial_equity : ℚ) :
    FileContent → JVal × Bool
  | .missing => (reset_state now, true)
  | .unreadable => (reset_state now, true)
  | .parsed v =>
      match v with
      | .obj [] => (reset_state now, true)
      | .obj (kv :: kvs) =>
          (ensure_today_state today initial_equity (.obj (kv :: kvs)), false)
      | _ => (reset_state now, true)

/-- save_state (lines 40-43): json.dump of the state into the file. -/
def save_state (state : JVal) : FileContent :=
  .parsed state

/-! ## Signal router (src/strategy/signal_router.py)

route_signals iterates the ML candidates; each iteration either hits a
`continue` before the crash-cap check (probability cutoff, data fetch
failure, empty frame), falls through to the check without appending a
signal, or appends one signal and then reaches the check.  The per-symbol
evaluation depends on live provider data, ML predictions and pandas
frames, so it is abstracted as the per-candidate outcome; the loop and the
crash-mode cap check (lines 148-150) are modelled exactly. -/

inductive EvalOutcome where
  /-- a `continue` that bypasses the cap check at the end of the body -/
  | skip
  /-- falls through the signal branches without appending -/
  | noSig
  /-- appends one signal for the candidate's symbol -/
  | sig
deriving DecidableEq

/-- The candidate loop of route_signals: returns the accepted signal
symbols and the list of candidates actually evaluated. -/
def routeLoop (crash : Bool) :
    List (String × EvalOutcome) → List String → List String × List String
  | [], signals => (signals, [])
  | (sym, o) :: rest, signals =>
      match o with
      | .skip =>
          let r := routeLoop crash rest signals
          (r.1, sym :: r.2)
      | .noSig =>
          if crash ∧ 3 ≤ signals.length then (signals, [sym])
          else
            let r := routeLoop crash rest signals
            (r.1, sym :: r.2)
      | .sig =>
          let signals2 := signals ++ [sym]
          if crash ∧ 3 ≤ signals2.length then (signals2, [sym])
          else
            let r := routeLoop crash rest signals2
            (r.1, sym :: r.2)

/-- route_signals (src/strategy/signal_router.py lines 17-151), with the
per-candidate evaluation outcome supplied as data. -/
def route_signals (cands : List (String × EvalOutcome)) (crash : Bool) :
    List String × List String :=
  routeLoop crash cands []

/-! ## Theorems -/

/-- C5: for every entry/current price pair (both positive) and every mode in
normal/crash, should_exit returns true whenever
gain = current/entry - 1 is at least the mode's take-profit percent
(0.015 crash / 0.018 normal) or at most minus the mode's stop-loss percent
(0.005 crash / 0.006 normal), for every clock value and every outcome of the
technical-exit block. -/
theorem should_exit_on_gain_band (aggExit : String → Except Unit Bool)
    (now : ℚ) (pos : RPosition) (crash : Bool)
    (hentry : 0 < pos.entry_price) (hprice : 0 < pos.current_price)
    (hgain : (if crash then (15 : ℚ)/1000 else TAKE_PROFIT_PCT)
        ≤ pos.current_price / pos.entry_price - 1
      ∨ pos.current_price / pos.entry_price - 1
        ≤ -(if crash then (5 : ℚ)/1000 else STOP_LOSS_PCT)) :
    (should_exit aggExit now pos crash).1 = true := by
  have h0 : ¬ (pos.current_price = 0 ∨ pos.entry_price = 0) := by
    push_neg
    exact ⟨ne_of_gt hprice, ne_of_gt hentry⟩
  simp only [should_exit, if_neg h0, if_pos hgain]

/-- Witness for C5: entry 100, current 102 in normal mode (gain 2 percent,
above the 1.8 percent take-profit) forces an exit. -/
theorem should_exit_on_gain_band_witness :
    (should_exit (fun _ => .error ()) 0
      ⟨102, 100, some "AAA", .missing⟩ false).1 = true := by
  have h := should_exit_on_gain_band (fun _ => .error ()) 0
    ⟨102, 100, some "AAA", .missing⟩ false (by norm_num) (by norm_num)
    (by left; norm_num [TAKE_PROFIT_PCT])
  exact h

/-- C10: a position whose entry_timestamp is missing or unparsable and whose
gain lies strictly inside the take-profit/stop-loss band is not exited, and
the time-stop, the technical exit filter and the force-exit-on-price-error
fail-safe are never evaluated: the result is (false, false) — no exit and
the technical-exit block never entered — for every clock value and every
technical-block oracle. -/
theorem should_exit_without_timestamp (aggExit : String → Except Unit Bool)
    (now : ℚ) (pos : RPosition) (crash : Bool)
    (hprice : pos.current_price ≠ 0) (hentry : pos.entry_price ≠ 0)
    (hts : pos.entry_timestamp = .missing ∨ pos.entry_timestamp = .unparsable)
    (hlo : -(if crash then (5 : ℚ)/1000 else STOP_LOSS_PCT)
      < pos.current_price / pos.entry_price - 1)
    (hhi : pos.current_price / pos.entry_price - 1
      < (if crash then (15 : ℚ)/1000 else TAKE_PROFIT_PCT)) :
    should_exit aggExit now pos crash = (false, false) := by
  have h0 : ¬ (pos.current_price = 0 ∨ pos.entry_price = 0) := by
    push_neg
    exact ⟨hprice, hentry⟩
  have hg : ¬ ((if crash then (15 : ℚ)/1000 else TAKE_PROFIT_PCT)
        ≤ pos.current_price / pos.entry_price - 1
      ∨ pos.current_price / pos.entry_price - 1
        ≤ -(if crash then (5 : ℚ)/1000 else STOP_LOSS_PCT)) := by
    push_neg
    exact ⟨hhi, hlo⟩
  rcases hts with hts | hts <;>
    simp only [should_exit, if_neg h0, if_neg hg, hts]

/-- Witness for C10: entry 100, current 100.5 (gain 0.5 percent, inside the
normal band), no entry_timestamp: no exit, technical block untouched. -/
theorem should_exit_without_timestamp_witness :
    should_exit (fun _ => .ok true) 1000000
      ⟨201/2, 100, some "BBB", .missing⟩ false = (false, false) := by
  have h := should_exit_without_timestamp (fun _ => .ok true) 1000000
    ⟨201/2, 100, some "BBB", .missing⟩ false (by norm_num) (by norm_num)
    (Or.inl rfl)
    (by norm_num [STOP_LOSS_PCT]) (by norm_num [TAKE_PROFIT_PCT])
  exact h

/-- Python round of an exact integer is that integer. -/
theorem pyRound_intCast (n : ℤ) : pyRound (n : ℚ) = n := by
  unfold pyRound
  rw [Int.floor_intCast]
  norm_num

/-- round(x, 2) when x has at most two decimals. -/
theorem round2_of_int (x : ℚ) (n : ℤ) (h : x * 100 = (n : ℚ)) :
    round2 x = (n : ℚ) / 100 := by
  unfold round2
  rw [h, pyRound_intCast]

/-- The bracket prices at entry 100 in both modes. -/
theorem tpsl_at_100 :
    take_profit_price 100 false = 509/5 ∧ stop_loss_price 100 false = 497/5
    ∧ take_profit_price 100 true = 203/2 ∧ stop_loss_price 100 true = 199/2 := by
  refine ⟨?_, ?_, ?_, ?_⟩
  · show round2 (100 * (1 + if false then (15 : ℚ)/1000 else TAKE_PROFIT_PCT)) = 509/5
    rw [round2_of_int _ 10180 (by norm_num [TAKE_PROFIT_PCT])]
    norm_num
  · show round2 (100 * (1 - if false then (5 : ℚ)/1000 else STOP_LOSS_PCT)) = 497/5
    rw [round2_of_int _ 9940 (by norm_num [STOP_LOSS_PCT])]
    norm_num
  · show round2 (100 * (1 + if true then (15 : ℚ)/1000 else TAKE_PROFIT_PCT)) = 203/2
    rw [round2_of_int _ 10150 (by norm_num)]
    norm_num
  · show round2 (100 * (1 - if true then (5 : ℚ)/1000 else STOP_LOSS_PCT)) = 199/2
    rw [round2_of_int _ 9950 (by norm_num)]
    norm_num

/-- Counterexample to C6: the bracket target prices are not ATR-based.  At
entry price 100 with ATR 2, tpMultiple 3 and slMultiple 1.5 the claim
predicts take-profit 106.00 and stop-loss 97.00, but take_profit_price and
stop_loss_price (used by execute_trades for every bracket order) ignore ATR
and multiples entirely and return neither value in either mode. -/
theorem bracket_not_atr_counterexample :
    take_profit_price 100 false ≠ 100 + 2 * 3
    ∧ take_profit_price 100 true ≠ 100 + 2 * 3
    ∧ stop_loss_price 100 false ≠ 100 - 2 * (3/2)
    ∧ stop_loss_price 100 true ≠ 100 - 2 * (3/2) := by
  obtain ⟨h1, h2, h3, h4⟩ := tpsl_at_100
  refine ⟨?_, ?_, ?_, ?_⟩ <;> intro h
  · rw [h1] at h; norm_num at h
  · rw [h3] at h; norm_num at h
  · rw [h2] at h; norm_num at h
  · rw [h4] at h; norm_num at h

/-- C6 amended: bracket target prices are percent-based on the entry price
only (ATR and the signal's multiples play no role): every order submitted
by execute_trades carries tp = take_profit_price p and
sl = stop_loss_price p at its fetched price p, and at entry price 100 these
are 101.80 and 99.40 in normal mode, 101.50 and 99.50 in crash mode. -/
theorem bracket_percent_based (env : ExecEnv) (hasClient : Bool)
    (allocations : List (String × ℤ)) (crash : Bool) (o : Order)
    (ho : o ∈ execute_trades env hasClient allocations crash) :
    (∃ p, env.price o.symbol = some p
      ∧ o.tp = take_profit_price p crash ∧ o.sl = stop_loss_price p crash)
    ∧ take_profit_price 100 false = 509/5 ∧ stop_loss_price 100 false = 497/5
    ∧ take_profit_price 100 true = 203/2 ∧ stop_loss_price 100 true = 199/2 := by
  refine ⟨?_, tpsl_at_100.1, tpsl_at_100.2.1, tpsl_at_100.2.2.1, tpsl_at_100.2.2.2⟩
  have main : ∀ (l : List (String × ℤ)) (bp : ℚ) (openPos : List String),
      o ∈ execLoop env crash openPos l bp →
      ∃ p, env.price o.symbol = some p
        ∧ o.tp = take_profit_price p crash ∧ o.sl = stop_loss_price p crash := by
    intro l
    induction l with
    | nil =>
        intro bp openPos h
        simp [execLoop] at h
    | cons hd tl ih =>
        intro bp openPos h
        obtain ⟨sym, shares⟩ := hd
        simp only [execLoop] at h
        split at h
        · exact ih _ _ h
        · split at h
          · exact ih _ _ h
          · split at h
            · exact ih _ _ h
            · rename_i p hp
              split at h
              · exact ih _ _ h
              · split at h
                · rcases List.mem_cons.mp h with h | h
                  · subst h
                    exact ⟨p, hp, rfl, rfl⟩
                  · exact ih _ _ h
                · exact ih _ _ h
  unfold execute_trades at ho
  split at ho
  · simp at ho
  · split at ho
    · simp at ho
    · exact main _ _ _ ho

/-- Witness for C6 amended: a concrete environment in which one order gets
submitted, with the percent-based targets. -/
theorem bracket_percent_based_witness :
    (∃ p, (fun _ => some (100 : ℚ)) "AAA" = some p
      ∧ (509/5 : ℚ) = take_profit_price p false
      ∧ (497/5 : ℚ) = stop_loss_price p false)
    ∧ take_profit_price 100 false = 509/5 ∧ stop_loss_price 100 false = 497/5
    ∧ take_profit_price 100 true = 203/2 ∧ stop_loss_price 100 true = 199/2 := by
  have hmem : (⟨"AAA", 1, 509/5, 497/5⟩ : Order) ∈
      execute_trades ⟨.ok [], .ok 0, fun _ => some 100, fun _ => true⟩ true
        [("AAA", 1)] false := by
    have : execute_trades ⟨.ok [], .ok 0, fun _ => some 100, fun _ => true⟩ true
        [("AAA", 1)] false = [⟨"AAA", 1, 509/5, 497/5⟩] := by
      simp [execute_trades, execLoop, tpsl_at_100.1, tpsl_at_100.2.1]
    rw [this]
    exact List.mem_singleton.mpr rfl
  have h := bracket_percent_based
    ⟨.ok [], .ok 0, fun _ => some 100, fun _ => true⟩ true
    [("AAA", 1)] false ⟨"AAA", 1, 509/5, 497/5⟩ hmem
  exact h

/-- First-success behaviour of get_price, by induction over the adapter
list. -/
theorem get_price_first_success (rs : List PriceRes) :
    ∀ (last : Option String) (i : ℕ) (p : ℚ),
      rs.get? i = some (.ok p) →
      (∀ j, j < i → ∀ r, rs.get? j = some r → ¬ priceSuccess r) →
      get_price rs last = (.ok p, i + 1) := by
  induction rs with
  | nil =>
      intro last i p hi _
      simp at hi
  | cons hd tl ih =>
      intro last i p hi hfail
      cases i with
      | zero =>
          simp only [List.get?] at hi
          injection hi with hi
          subst hi
          rfl
      | succ j =>
          have hhd : ¬ priceSuccess hd := hfail 0 (Nat.succ_pos j) hd rfl
          have htl : ∀ k, k < j → ∀ r, tl.get? k = some r → ¬ priceSuccess r := by
            intro k hk r hr
            exact hfail (k + 1) (Nat.succ_lt_succ hk) r hr
          have hi' : tl.get? j = some (.ok p) := hi
          cases hd with
          | ok q => exact absurd trivial hhd
          | nil =>
              have := ih last j p hi' htl
              simp only [get_price, this]
          | err e =>
              have := ih (some e) j p hi' htl
              simp only [get_price, this]

/-- First-success behaviour of get_aggregates, by induction over the
adapter list. -/
theorem get_aggregates_first_success (rs : List AggRes) :
    ∀ (last : Option String) (i : ℕ) (bars : List ℚ),
      rs.get? i = some (.ret bars) → bars ≠ [] →
      (∀ j, j < i → ∀ r, rs.get? j = some r → ¬ aggSuccess r) →
      get_aggregates rs last = (.ok bars, i + 1) := by
  induction rs with
  | nil =>
      intro last i bars hi _ _
      simp at hi
  | cons hd tl ih =>
      intro last i bars hi hne hfail
      cases i with
      | zero =>
          simp only [List.get?] at hi
          injection hi with hi
          subst hi
          simp only [get_aggregates, if_neg hne]
      | succ j =>
          have hhd : ¬ aggSuccess hd := hfail 0 (Nat.succ_pos j) hd rfl
          have htl : ∀ k, k < j → ∀ r, tl.get? k = some r → ¬ aggSuccess r := by
            intro k hk r hr
            exact hfail (k + 1) (Nat.succ_lt_succ hk) r hr
          have hi' : tl.get? j = some (.ret bars) := hi
          cases hd with
          | ret bs =>
              have hbs : bs = [] := by
                by_contra hcon
                exact hhd hcon
              subst hbs
              have := ih last j bars hi' hne htl
              simp [get_aggregates, this]
          | err e =>
              have := ih (some e) j bars hi' hne htl
              simp only [get_aggregates, this]

/-- C2: for every ordered adapter list, if the adapter at position i
succeeds (returns a non-None price / a non-empty bar list) and every
earlier adapter fails, then get_price (resp. get_aggregates) returns that
adapter's result and calls exactly i+1 adapters — the adapters after
position i are never called. -/
theorem router_first_success :
    (∀ (rs : List PriceRes) (last : Option String) (i : ℕ) (p : ℚ),
      rs.get? i = some (.ok p) →
      (∀ j, j < i → ∀ r, rs.get? j = some r → ¬ priceSuccess r) →
      get_price rs last = (.ok p, i + 1) ∧ i + 1 ≤ rs.length)
    ∧ (∀ (rs : List AggRes) (last : Option String) (i : ℕ) (bars : List ℚ),
      rs.get? i = some (.ret bars) → bars ≠ [] →
      (∀ j, j < i → ∀ r, rs.get? j = some r → ¬ aggSuccess r) →
      get_aggregates rs last = (.ok bars, i + 1) ∧ i + 1 ≤ rs.length) := by
  constructor
  · intro rs last i p hi hfail
    refine ⟨get_price_first_success rs last i p hi hfail, ?_⟩
    exact Nat.succ_le_of_lt (List.get?_eq_some.mp hi).1
  · intro rs last i bars hi hne hfail
    refine ⟨get_aggregates_first_success rs last i bars hi hne hfail, ?_⟩
    exact Nat.succ_le_of_lt (List.get?_eq_some.mp hi).1

/-- Witness for C2: with a failing first adapter, the second adapter's
result is returned and the third adapter is never called. -/
theorem router_first_success_witness :
    (get_price [.err "down", .ok 5, .ok 7] none = (.ok 5, 2) ∧ 2 ≤ 3)
    ∧ (get_aggregates [.ret [], .ret [1, 2], .err "down"] none
        = (.ok [1, 2], 2) ∧ 2 ≤ 3) := by
  constructor
  · exact router_first_success.1 [.err "down", .ok 5, .ok 7] none 1 5 rfl
      (by
        intro j hj r hr
        interval_cases j
        injection hr with hr
        subst hr
        simp [priceSuccess])
  · exact router_first_success.2 [.ret [], .ret [1, 2], .err "down"] none 1
      [1, 2] rfl (by simp)
      (by
        intro j hj r hr
        interval_cases j
        injection hr with hr
        subst hr
        simp [aggSuccess])

/-- If the crash-mode cap already holds, the allocation loop returns
immediately whatever signals remain. -/
theorem allocLoop_capped (price : String → Option ℚ) (base : ℚ)
    (sigs : List AllocSignal) (acc : List (String × ℤ)) (rem : ℚ)
    (hcap : 3 ≤ acc.length) :
    allocLoop price true base sigs acc rem = acc := by
  cases sigs with
  | nil => rfl
  | cons sig rest =>
      simp only [allocLoop]
      simp [hcap]

/-- A signal whose price fetch raises leaves the allocation loop's state
untouched: the run continues exactly as if the signal were absent. -/
theorem allocLoop_skips_failed_price (price : String → Option ℚ)
    (crash : Bool) (base : ℚ) (sig : AllocSignal)
    (hfail : price sig.symbol = none) :
    ∀ (pre post : List AllocSignal) (acc : List (String × ℤ)) (rem : ℚ),
      allocLoop price crash base (pre ++ sig :: post) acc rem
        = allocLoop price crash base (pre ++ post) acc rem := by
  intro pre
  induction pre with
  | nil =>
      intro post acc rem
      simp only [List.nil_append]
      by_cases hcap : crash = true ∧ 3 ≤ acc.length
      · obtain ⟨hc, hlen⟩ := hcap
        subst hc
        rw [allocLoop_capped price base _ acc rem hlen]
        cases post with
        | nil => rfl
        | cons q qs => exact (allocLoop_capped price base _ acc rem hlen).symm
      · simp only [allocLoop, if_neg hcap, hfail]
  | cons q qs ih =>
      intro post acc rem
      simp only [List.cons_append, allocLoop]
      by_cases hcap : crash = true ∧ 3 ≤ acc.length
      · rw [if_pos hcap, if_pos hcap]
      · rw [if_neg hcap, if_neg hcap]
        cases hq : price q.symbol with
        | none => exact ih post acc rem
        | some p =>
            simp only []
            repeat' split
            all_goals first
              | rfl
              | exact ih post _ _

/-- When the final adapter raises, the threaded last cause is that
adapter's exception, whatever happened before it. -/
theorem lastCause_append_err (e : String) :
    ∀ (rs : List PriceRes) (last : Option String),
      lastCause (rs ++ [.err e]) last = some e := by
  intro rs
  induction rs with
  | nil => intro last; rfl
  | cons hd tl ih =>
      intro last
      cases hd with
      | ok q => simpa only [List.cons_append, lastCause] using ih last
      | nil => simpa only [List.cons_append, lastCause] using ih last
      | err e2 => simpa only [List.cons_append, lastCause] using ih (some e2)

/-- C3: if every adapter fails for a symbol (raises or returns None),
get_price fails with the aggregate error carrying the last raised cause —
when the final adapter itself raised, that is the final adapter's
exception — and the caller allocate_positions treats the failure as the
symbol being unavailable: the failing signal leaves the allocation run
exactly as if it were not in the list (skipped, never fatal). -/
theorem all_providers_failed_skips_symbol :
    (∀ (rs : List PriceRes) (last : Option String),
      (∀ r ∈ rs, ¬ priceSuccess r) →
      (get_price rs last).1 = .error (lastCause rs last))
    ∧ (∀ (rs : List PriceRes) (e : String),
      lastCause (rs ++ [.err e]) none = some e)
    ∧ (∀ (price : String → Option ℚ) (crash : Bool) (base : ℚ)
        (sig : AllocSignal) (pre post : List AllocSignal)
        (acc : List (String × ℤ)) (rem : ℚ),
      price sig.symbol = none →
      allocLoop price crash base (pre ++ sig :: post) acc rem
        = allocLoop price crash base (pre ++ post) acc rem) := by
  refine ⟨?_, ?_, ?_⟩
  · intro rs
    induction rs with
    | nil => intro last _; rfl
    | cons hd tl ih =>
        intro last hfail
        have hhd : ¬ priceSuccess hd := hfail hd (List.mem_cons_self hd tl)
        have htl : ∀ r ∈ tl, ¬ priceSuccess r := fun r hr =>
          hfail r (List.mem_cons_of_mem hd hr)
        cases hd with
        | ok q => exact absurd trivial hhd
        | nil => simpa only [get_price, lastCause] using ih last htl
        | err e => simpa only [get_price, lastCause] using ih (some e) htl
  · intro rs e
    exact lastCause_append_err e rs none
  · intro price crash base sig pre post acc rem hfail
    exact allocLoop_skips_failed_price price crash base sig hfail pre post acc rem

/-- Witness for C3: both adapters fail for the symbol (a raise, then a None
result): the error carries the raised cause, with the last adapter raising
it is that adapter's cause, and a failing signal in the middle of an
allocation run changes nothing. -/
theorem all_providers_failed_skips_symbol_witness :
    ((get_price [.err "timeout", .nil] none).1 = .error (lastCause [.err "timeout", .nil] none))
    ∧ lastCause ([.nil] ++ [.err "500"]) none = some "500"
    ∧ allocLoop (fun _ => none) false 10 ([] ++ ⟨"XYZ", "momentum", 1⟩ :: []) [] 30
        = allocLoop (fun _ => none) false 10 ([] ++ []) [] 30 := by
  refine ⟨?_, ?_, ?_⟩
  · exact all_providers_failed_skips_symbol.1 [.err "timeout", .nil] none
      (by
        intro r hr
        rcases List.mem_cons.mp hr with h | h
        · subst h; simp [priceSuccess]
        · rcases List.mem_cons.mp h with h | h
          · subst h; simp [priceSuccess]
          · simp at h)
  · exact all_providers_failed_skips_symbol.2.1 [.nil] "500"
  · exact all_providers_failed_skips_symbol.2.2 (fun _ => none) false 10
      ⟨"XYZ", "momentum", 1⟩ [] [] [] 30 rfl

/-- A symbol listed among the brokerage's open positions is skipped by the
order loop: no submission ever carries it. -/
theorem execLoop_no_submission_for_open (env : ExecEnv) (crash : Bool)
    (openPos : List String) (sym : String) (hmem : sym ∈ openPos) :
    ∀ (l : List (String × ℤ)) (bp : ℚ),
      submissionsFor (execLoop env crash openPos l bp) sym = 0 := by
  intro l
  induction l with
  | nil => intro bp; rfl
  | cons hd tl ih =>
      intro bp
      obtain ⟨s, shares⟩ := hd
      simp only [execLoop]
      split
      · exact ih bp
      · split
        · exact ih bp
        · rename_i hnotin
          cases hp : env.price s with
          | none => exact ih bp
          | some p =>
              simp only []
              split
              · exact ih bp
              · split
                · have hne : ¬ (s = sym) := fun h => hnotin (h ▸ hmem)
                  simp only [submissionsFor, List.filter_cons]
                  rw [if_neg (by simpa using hne)]
                  exact ih _
                · exact ih bp

/-- C4: calling execute_trades twice in the same cycle for a symbol that
the brokerage's open-position listing reports as already held results in
exactly zero order submissions for that symbol across both calls, whatever
the allocations, crash flags, prices, buying power and submit outcomes. -/
theorem execute_twice_zero_submissions (env1 env2 : ExecEnv)
    (hc1 hc2 : Bool) (a1 a2 : List (String × ℤ)) (c1 c2 : Bool)
    (sym : String) (l1 l2 : List String)
    (h1 : env1.positionsFetch = .ok l1) (hm1 : sym ∈ l1)
    (h2 : env2.positionsFetch = .ok l2) (hm2 : sym ∈ l2) :
    submissionsFor (execute_trades env1 hc1 a1 c1) sym
      + submissionsFor (execute_trades env2 hc2 a2 c2) sym = 0 := by
  have key : ∀ (env : ExecEnv) (hc : Bool) (a : List (String × ℤ))
      (c : Bool) (l : List String),
      env.positionsFetch = .ok l → sym ∈ l →
      submissionsFor (execute_trades env hc a c) sym = 0 := by
    intro env hc a c l hfetch hmem
    unfold execute_trades
    split
    · rfl
    · split
      · rfl
      · simp only [hfetch]
        exact execLoop_no_submission_for_open env c l sym hmem a _
  rw [key env1 hc1 a1 c1 l1 h1 hm1, key env2 hc2 a2 c2 l2 h2 hm2]

/-- Witness for C4: symbol XYZ is already held, so two runs submit nothing
for it. -/
theorem execute_twice_zero_submissions_witness :
    submissionsFor (execute_trades
      ⟨.ok ["XYZ"], .ok 1000, fun _ => some 10, fun _ => true⟩ true
      [("XYZ", 5)] false) "XYZ"
    + submissionsFor (execute_trades
      ⟨.ok ["XYZ", "ABC"], .ok 1000, fun _ => some 10, fun _ => true⟩ true
      [("XYZ", 5)] true) "XYZ" = 0 := by
  exact execute_twice_zero_submissions
    ⟨.ok ["XYZ"], .ok 1000, fun _ => some 10, fun _ => true⟩
    ⟨.ok ["XYZ", "ABC"], .ok 1000, fun _ => some 10, fun _ => true⟩
    true true [("XYZ", 5)] [("XYZ", 5)] false true "XYZ"
    ["XYZ"] ["XYZ", "ABC"] rfl (by simp) rfl (by simp)

/-- Under crash mode the candidate loop never exceeds three accepted
signals. -/
theorem routeLoop_cap :
    ∀ (cands : List (String × EvalOutcome)) (signals : List String),
      signals.length < 3 → ((routeLoop true cands signals).1).length ≤ 3 := by
  intro cands
  induction cands with
  | nil =>
      intro s hs
      exact Nat.le_of_lt hs
  | cons hd tl ih =>
      intro s hs
      obtain ⟨sym, o⟩ := hd
      cases o with
      | skip => simpa only [routeLoop] using ih s hs
      | noSig =>
          simp only [routeLoop]
          split
          · exact Nat.le_of_lt hs
          · exact ih s hs
      | sig =>
          simp only [routeLoop]
          split
          · rename_i h
            simp only [List.append_eq, List.length_append, List.length_cons,
              List.length_nil]
            omega
          · rename_i h
            apply ih
            simp at h ⊢
            omega

/-- Under crash mode, once the accepted signals reach three the loop has
terminated: appending further candidates changes neither the accepted
signals nor the evaluated candidates. -/
theorem routeLoop_early_termination :
    ∀ (c1 : List (String × EvalOutcome)) (c2 : List (String × EvalOutcome))
      (signals : List String), signals.length < 3 →
      ((routeLoop true c1 signals).1).length = 3 →
      routeLoop true (c1 ++ c2) signals = routeLoop true c1 signals := by
  intro c1
  induction c1 with
  | nil =>
      intro c2 s hs h3
      simp only [routeLoop] at h3
      omega
  | cons hd tl ih =>
      intro c2 s hs h3
      obtain ⟨sym, o⟩ := hd
      cases o with
      | skip =>
          rw [List.cons_append]
          simp only [routeLoop] at h3 ⊢
          have heq := ih c2 s hs h3
          have heq' : routeLoop true (List.append tl c2) s
              = routeLoop true tl s := heq
          simp only [List.append_eq, heq, heq']
      | noSig =>
          rw [List.cons_append]
          simp only [routeLoop] at h3 ⊢
          split at h3
          · simp at h3
            omega
          · rename_i hcond
            rw [if_neg hcond, if_neg hcond]
            have heq := ih c2 s hs h3
            have heq' : routeLoop true (List.append tl c2) s
                = routeLoop true tl s := heq
            simp only [List.append_eq, heq, heq']
      | sig =>
          rw [List.cons_append]
          simp only [routeLoop] at h3 ⊢
          split at h3
          · rename_i hcond
            rw [if_pos hcond, if_pos hcond]
          · rename_i hcond
            rw [if_neg hcond, if_neg hcond]
            simp at hcond
            have hlen : (s ++ [sym]).length < 3 := by
              simp
              omega
            have heq := ih c2 (s ++ [sym]) hlen h3
            have heq' : routeLoop true (List.append tl c2) (s ++ [sym])
                = routeLoop true tl (s ++ [sym]) := heq
            simp only [List.append_eq, heq, heq']

/-- C9: under crash mode the signal router accepts at most three signals
per cycle, and the cap is enforced by terminating the candidate loop as
soon as the third signal is accepted: extending the candidate list beyond
that point changes neither the accepted signals nor the list of evaluated
candidates (no further symbols are evaluated; nothing is filtered
afterward). -/
theorem crash_mode_signal_cap :
    (∀ cands, ((route_signals cands true).1).length ≤ 3)
    ∧ (∀ c1 c2, ((route_signals c1 true).1).length = 3 →
        route_signals (c1 ++ c2) true = route_signals c1 true) := by
  constructor
  · intro cands
    exact routeLoop_cap cands [] (by norm_num)
  · intro c1 c2 h3
    exact routeLoop_early_termination c1 c2 [] (by norm_num) h3

/-- Witness for C9: three accepted signals stop the evaluation; a fourth
qualifying candidate is never looked at. -/
theorem crash_mode_signal_cap_witness :
    ((route_signals [("a", .sig), ("b", .sig), ("c", .sig), ("d", .sig)]
        true).1).length ≤ 3
    ∧ route_signals ([("a", .sig), ("b", .sig), ("c", .sig)] ++ [("d", .sig)])
        true = route_signals [("a", .sig), ("b", .sig), ("c", .sig)] true := by
  constructor
  · exact crash_mode_signal_cap.1
      [("a", .sig), ("b", .sig), ("c", .sig), ("d", .sig)]
  · exact crash_mode_signal_cap.2
      [("a", .sig), ("b", .sig), ("c", .sig)] [("d", .sig)] (by decide)

/-- C7: portfolio state round-trips.  A valid persisted state — a non-empty
JSON object whose date field holds today's date, as the documented
invariant requires of every state read back — is returned unchanged by
load_state (the day-boundary reset does not fire), so saving the loaded
state writes back exactly the original state. -/
theorem load_save_roundtrip (today now : String) (initial_equity : ℚ)
    (kv : String × JVal) (kvs : List (String × JVal))
    (hdate : dateIsToday (jget (kv :: kvs) "date") today = true) :
    save_state (load_state today now initial_equity
        (.parsed (.obj (kv :: kvs)))).1
      = .parsed (.obj (kv :: kvs)) := by
  simp only [load_state, ensure_today_state, hdate, if_true, save_state]

/-- Witness for C7: a concrete current-day state is written back
verbatim. -/
theorem load_save_roundtrip_witness :
    save_state (load_state "2026-10-12" "T0" 100000
        (.parsed (.obj [("date", .str "2026-10-12"), ("equity", .num 5),
          ("daily_pnl", .num 2), ("positions", .arr [])]))).1
      = .parsed (.obj [("date", .str "2026-10-12"), ("equity", .num 5),
          ("daily_pnl", .num 2), ("positions", .arr [])]) := by
  exact load_save_roundtrip "2026-10-12" "T0" 100000
    ("date", .str "2026-10-12")
    [("equity", .num 5), ("daily_pnl", .num 2), ("positions", .arr [])]
    rfl

/-- Counterexample to C8: on an unreadable state file, load_state does
return without raising and logs a warning, but the state it returns is not
the documented empty-state shape (the module's own DEFAULT_STATE: date,
equity, daily_pnl 0, positions as an empty list): reset_state builds an
object holding only an empty positions dict and a last_updated
timestamp. -/
theorem load_corrupt_shape_counterexample :
    (load_state "2099-01-01" "T0" 100000 .unreadable).1
        ≠ DEFAULT_STATE "2099-01-01"
    ∧ (load_state "2099-01-01" "T0" 100000 .unreadable).2 = true := by
  constructor
  · intro h
    simp only [load_state, reset_state, DEFAULT_STATE] at h
    injection h with h
    rw [List.cons_eq_cons] at h
    obtain ⟨h1, -⟩ := h
    rw [Prod.mk.injEq] at h1
    exact absurd h1.1 (by decide)
  · rfl

/-- C8 amended: for every corrupted, unreadable, missing, non-object or
empty persisted state file, load_state does not raise: it logs a warning
and returns the freshly persisted reset state — an object holding an empty
positions dict and a last_updated timestamp — which differs from the
documented DEFAULT_STATE empty-state shape. -/
theorem load_corrupt_returns_reset (today now : String)
    (initial_equity : ℚ) (l : List JVal) (q : ℚ) (s : String) (b : Bool) :
    load_state today now initial_equity .unreadable = (reset_state now, true)
    ∧ load_state today now initial_equity .missing = (reset_state now, true)
    ∧ load_state today now initial_equity (.parsed (.obj []))
        = (reset_state now, true)
    ∧ load_state today now initial_equity (.parsed (.arr l))
        = (reset_state now, true)
    ∧ load_state today now initial_equity (.parsed (.str s))
        = (reset_state now, true)
    ∧ load_state today now initial_equity (.parsed (.num q))
        = (reset_state now, true)
    ∧ load_state today now initial_equity (.parsed (.bool b))
        = (reset_state now, true)
    ∧ reset_state now
        = .obj [("positions", .obj []), ("last_updated", .str now)]
    ∧ reset_state now ≠ DEFAULT_STATE today := by
  refine ⟨rfl, rfl, rfl, rfl, rfl, rfl, rfl, rfl, ?_⟩
  intro h
  simp only [reset_state, DEFAULT_STATE] at h
  injection h with h
  rw [List.cons_eq_cons] at h
  obtain ⟨h1, -⟩ := h
  rw [Prod.mk.injEq] at h1
  exact absurd h1.1 (by decide)

theorem totalNotional_nil (price : String → Option ℚ) :
    totalNotional price [] = 0 := rfl

theorem totalNotional_cons (price : String → Option ℚ) (e : String × ℤ)
    (l : List (String × ℤ)) :
    totalNotional price (e :: l)
      = (e.2 : ℚ) * priceD price e.1 + totalNotional price l := by
  simp [totalNotional]

/-- Every entry of an insert-or-replace result is an old entry or the new
binding. -/
theorem upsert_mem (s : String) (v : ℤ) :
    ∀ (l : List (String × ℤ)) (e : String × ℤ),
      e ∈ upsert l s v → e ∈ l ∨ e = (s, v) := by
  intro l
  induction l with
  | nil =>
      intro e he
      simp only [upsert] at he
      right
      simpa using he
  | cons hd tl ih =>
      intro e he
      obtain ⟨k, x⟩ := hd
      simp only [upsert] at he
      split at he
      · rcases List.mem_cons.mp he with h | h
        · right; exact h
        · left; exact List.mem_cons_of_mem _ h
      · rcases List.mem_cons.mp he with h | h
        · left; exact h ▸ List.mem_cons_self _ _
        · rcases ih e h with h2 | h2
          · left; exact List.mem_cons_of_mem _ h2
          · right; exact h2

/-- Replacing (or appending) a binding grows the total notional by at most
the new binding's notional, because the replaced entry was nonnegative. -/
theorem totalNotional_upsert_le (price : String → Option ℚ) (s : String)
    (v : ℤ) :
    ∀ (l : List (String × ℤ)), entriesWF price l →
      totalNotional price (upsert l s v)
        ≤ totalNotional price l + (v : ℚ) * priceD price s := by
  intro l
  induction l with
  | nil =>
      intro _
      simp only [upsert, totalNotional_cons, totalNotional_nil,
        totalNotional]
      simp
  | cons hd tl ih =>
      intro hwf
      obtain ⟨k, x⟩ := hd
      have hhd := hwf (k, x) (List.mem_cons_self _ _)
      have htl : entriesWF price tl := fun e he =>
        hwf e (List.mem_cons_of_mem _ he)
      simp only [upsert]
      split
      · rename_i hk
        subst hk
        rw [totalNotional_cons, totalNotional_cons]
        have hx : (0 : ℚ) < (x : ℚ) := by exact_mod_cast hhd.1
        have hpos : 0 ≤ (x : ℚ) * priceD price k :=
          le_of_lt (mul_pos hx hhd.2)
        linarith
      · rw [totalNotional_cons, totalNotional_cons]
        have := ih htl
        linarith

/-- Budget-safety of the allocation loop: starting from any nonnegative
remaining budget and a well-formed dict, the loop never grows the total
notional beyond the current total plus the remaining budget. -/
theorem allocLoop_totalNotional_le (price : String → Option ℚ)
    (crash : Bool) (base : ℚ) :
    ∀ (sigs : List AllocSignal) (acc : List (String × ℤ)) (rem : ℚ),
      0 ≤ rem → entriesWF price acc →
      totalNotional price (allocLoop price crash base sigs acc rem)
        ≤ totalNotional price acc + rem := by
  intro sigs
  induction sigs with
  | nil =>
      intro acc rem hrem _
      simp only [allocLoop]
      linarith
  | cons sig rest ih =>
      intro acc rem hrem hwf
      simp only [allocLoop]
      split
      · linarith
      · cases hp : price sig.symbol with
        | none => exact ih acc rem hrem hwf
        | some p =>
            simp only []
            by_cases hp0 : 0 < p
            · simp only [if_pos hp0]
              set size := min (sizeFor base crash sig.stype sig.vol_level) rem
                with hsize
              set shares : ℤ := ⌊size / p⌋ with hshares
              by_cases hsh : shares ≤ 0
              · rw [if_pos hsh]
                exact ih acc rem hrem hwf
              · rw [if_neg hsh]
                have hsh1 : (1 : ℤ) ≤ shares := by omega
                have hshq : (0 : ℚ) < (shares : ℚ) := by exact_mod_cast
                  (by omega : (0 : ℤ) < shares)
                by_cases hno : rem < (shares : ℚ) * p
                · rw [if_pos hno]
                  exact ih acc rem hrem hwf
                · rw [if_neg hno]
                  have hnle : (shares : ℚ) * p ≤ rem := le_of_not_lt hno
                  have hpd : priceD price sig.symbol = p := by
                    simp [priceD, hp]
                  have hwf2 : entriesWF price (upsert acc sig.symbol shares) := by
                    intro e he
                    rcases upsert_mem sig.symbol shares acc e he with h | h
                    · exact hwf e h
                    · subst h
                      constructor
                      · omega
                      · rw [hpd]
                        exact hp0
                  have hup := totalNotional_upsert_le price sig.symbol shares
                    acc hwf
                  rw [hpd] at hup
                  by_cases hz : rem - (shares : ℚ) * p ≤ 0
                  · rw [if_pos hz]
                    linarith
                  · rw [if_neg hz]
                    have hrem2 : 0 ≤ rem - (shares : ℚ) * p := by linarith
                    have := ih (upsert acc sig.symbol shares)
                      (rem - (shares : ℚ) * p) hrem2 hwf2
                    linarith
            · simp only [if_neg hp0]
              rw [if_pos (le_refl (0 : ℤ))]
              exact ih acc rem hrem hwf

/-- C1: for every signal list, crash flag, configured daily budget B ≥ 0
and price assignment, the allocation returned by allocate_positions has
total notional at most B, and at most 0.8·B when crash mode is on. -/
theorem allocate_positions_budget_bound (price : String → Option ℚ)
    (sigs : List AllocSignal) (crash : Bool) (B : ℚ) (hB : 0 ≤ B) :
    totalNotional price (allocate_positions price sigs crash B)
      ≤ (if crash then (4/5) * B else B)
    ∧ totalNotional price (allocate_positions price sigs crash B) ≤ B := by
  have hwfnil : entriesWF price [] := by
    intro e he
    exact absurd he (List.not_mem_nil e)
  have hmain : totalNotional price (allocate_positions price sigs crash B)
      ≤ (if crash then (4/5) * B else B) := by
    by_cases hsig : sigs = []
    · simp only [allocate_positions, if_pos hsig, totalNotional_nil]
      split <;> linarith
    · cases crash
      · simp only [allocate_positions, if_neg hsig, Bool.false_eq_true,
          if_false]
        have := allocLoop_totalNotional_le price false (B / 3) sigs [] B
          hB hwfnil
        rw [totalNotional_nil] at this
        linarith
      · simp only [allocate_positions, if_neg hsig, if_true]
        have hB45 : 0 ≤ B * (4/5) := by linarith
        have := allocLoop_totalNotional_le price true (B * (4/5) / 3) sigs
          [] (B * (4/5)) hB45 hwfnil
        rw [totalNotional_nil] at this
        linarith
  refine ⟨hmain, le_trans hmain ?_⟩
  split <;> linarith

/-- Witness for C1: one allocatable signal under a 100-dollar budget stays
within the budget. -/
theorem allocate_positions_budget_bound_witness :
    totalNotional (fun _ => some 10) (allocate_positions (fun _ => some 10)
      [⟨"AAA", "momentum", 1⟩] false 100) ≤ (if false then (4/5) * 100 else (100 : ℚ))
    ∧ totalNotional (fun _ => some 10) (allocate_positions (fun _ => some 10)
      [⟨"AAA", "momentum", 1⟩] false 100) ≤ 100 := by
  exact allocate_positions_budget_bound (fun _ => some 10)
    [⟨"AAA", "momentum", 1⟩] false 100 (by norm_num)

end MicrocapScout
